import Mathlib

/-!
# Verification of the tandem queueing simulation

Shallow embedding of the discrete-event simulation in
`src/Projects/Queue/Code/practice.py` (the refined variant) together with the
older variant `src/Queue Simulation/main.py` where a claim concerns it.

Modelling choices:
* Python floats are modelled as rationals (`ℚ`); all quantities in the
  program are produced by `+`, `-`, `*`, `/`, `max` on sampled values, so the
  arithmetic is exact.
* Randomness (`random.expovariate`, `random.random`) is modelled by passing
  the sampled values in as explicit input streams, as the spec's Design Notes
  demand of a reimplementation ("pass an explicit sampler instance").
* A customer's stay at one station (`Queue.process`) is a simpy generator
  with three resume points.  Its three straight-line segments between
  suspension points are embedded as three pure state-transition blocks
  (`arriveBlock`, `grantBlock`, `completeBlock`) over the mutable attributes
  of class `Queue`.
* The simpy scheduler (single-threaded, time-ordered, FIFO capacity-1
  resource, halt at the horizon) is embedded two ways:
  - a Boolean validity predicate `validFrom` on per-station event traces,
    capturing exactly the scheduling constraints simpy guarantees
    (non-decreasing event times; a service grant only when the server is
    free and a customer is waiting; a completion only while serving);
    invariant claims are proved over *all* such traces, a superset of the
    traces the engine can produce;
  - an executable whole-network run `runNetwork` that reconstructs, from the
    sampled streams, the event times the engine produces for a FIFO
    capacity-1 server (service start = max(arrival, previous completion),
    i.e. the Lindley recursion) and cuts every event at the horizon, since
    `env.run(until=T)` processes exactly the events with time `< T`.
-/

namespace PEIUST

/-- The mutable statistics attributes of class `Queue`
(`practice.py`, `Queue.__init__`).  The simpy handles `env`, `server` and the
constants `mu`, `id` are not part of the statistics state.  `num_in_queue`
and `server_status` are Python ints, embedded as `ℤ`. -/
structure QueueState where
  num_serviced : ℕ
  num_in_queue : ℤ
  total_delay : ℚ
  times_of_arrival : List ℚ
  times_of_arrival_debug : List ℚ
  service_times : List ℚ
  area_under_b : ℚ
  area_under_q : ℚ
  last_event_time : ℚ
  server_status : ℤ
deriving DecidableEq, Repr

/-- `Queue.__init__`: every counter starts at zero, every list empty. -/
def initQueue : QueueState :=
  { num_serviced := 0
    num_in_queue := 0
    total_delay := 0
    times_of_arrival := []
    times_of_arrival_debug := []
    service_times := []
    area_under_b := 0
    area_under_q := 0
    last_event_time := 0
    server_status := 0 }

/-- `Queue.update_stats` (`practice.py`): integrate the elapsed interval
`now - last_event_time` into both areas using the current counters, then
stamp `last_event_time := now`. -/
def update_stats (now : ℚ) (q : QueueState) : QueueState :=
  { q with
    last_event_time := now
    area_under_b := q.area_under_b + (now - q.last_event_time) * (q.server_status : ℚ)
    area_under_q := q.area_under_q + (now - q.last_event_time) * (q.num_in_queue : ℚ) }

/-- First segment of `Queue.process` (`practice.py`), run when a customer
arrives at time `t`: append the arrival time to `times_of_arrival` and
`times_of_arrival_debug`, call `update_stats`, then `num_in_queue += 1`;
the process then suspends on `server.request()`. -/
def arriveBlock (t : ℚ) (q : QueueState) : QueueState :=
  let q1 := { q with
    times_of_arrival := q.times_of_arrival ++ [t]
    times_of_arrival_debug := q.times_of_arrival_debug ++ [t] }
  let q2 := update_stats t q1
  { q2 with num_in_queue := q2.num_in_queue + 1 }

/-- Second segment of `Queue.process` (`practice.py`), run when the server is
granted at time `t`: `server_status = 1`, then
`total_delay += now - times_of_arrival.pop(0)`, `num_in_queue -= 1`,
`num_serviced += 1`, and only then `update_stats`; the process then samples a
service time and suspends on the timeout.  Python's `pop(0)` on an empty
list raises `IndexError`; that branch is unreachable on scheduler-valid
traces (a grant needs a waiting customer) and is embedded as the identity. -/
def grantBlock (t : ℚ) (q : QueueState) : QueueState :=
  match q.times_of_arrival with
  | [] => q
  | a :: rest =>
      update_stats t
        { q with
          server_status := 1
          total_delay := q.total_delay + (t - a)
          times_of_arrival := rest
          num_in_queue := q.num_in_queue - 1
          num_serviced := q.num_serviced + 1 }

/-- Third segment of `Queue.process` (`practice.py`), run when the service
timeout elapses at time `t` for the sampled duration `s`: append `s` to
`service_times`, call `update_stats`, and clear `server_status` when no
customer is waiting; the `with` block then releases the server. -/
def completeBlock (t s : ℚ) (q : QueueState) : QueueState :=
  let q1 := update_stats t { q with service_times := q.service_times ++ [s] }
  if q1.num_in_queue = 0 then { q1 with server_status := 0 } else q1

/-- The state at which the arrival segment of `practice.py` invokes
`update_stats`: both appends have happened, the `num_in_queue` increment has
not (`arriveBlock` factors through it, see `arriveBlock_factor`). -/
def arriveIntegrationState (t : ℚ) (q : QueueState) : QueueState :=
  { q with
    times_of_arrival := q.times_of_arrival ++ [t]
    times_of_arrival_debug := q.times_of_arrival_debug ++ [t] }

/-- The state at which the grant segment of `practice.py` invokes
`update_stats`: `server_status`, the pop, the decrement and `num_serviced`
have all been applied (`grantBlock` factors through it, see
`grantBlock_factor`; the `[]` branch is the unreachable `IndexError`
case). -/
def grantIntegrationState (t : ℚ) (q : QueueState) : QueueState :=
  match q.times_of_arrival with
  | [] => q
  | a :: rest =>
      { q with
        server_status := 1
        total_delay := q.total_delay + (t - a)
        times_of_arrival := rest
        num_in_queue := q.num_in_queue - 1
        num_serviced := q.num_serviced + 1 }

/-- The state at which the completion segment of `practice.py` invokes
`update_stats`: only `service_times` has been appended (`completeBlock`
factors through it, see `completeBlock_factor`). -/
def completeIntegrationState (s : ℚ) (q : QueueState) : QueueState :=
  { q with service_times := q.service_times ++ [s] }

/-- One scheduler event at a station: a customer arrival, a service grant,
or a service completion carrying the sampled duration. -/
inductive Ev where
  | arrive (t : ℚ)
  | grant (t : ℚ)
  | complete (t s : ℚ)
deriving DecidableEq, Repr

/-- The simulated time at which an event is processed. -/
def evTime : Ev → ℚ
  | Ev.arrive t => t
  | Ev.grant t => t
  | Ev.complete t _ => t

def isArriveEv : Ev → Bool
  | Ev.arrive _ => true
  | _ => false

def isGrantEv : Ev → Bool
  | Ev.grant _ => true
  | _ => false

def isCompleteEv : Ev → Bool
  | Ev.complete _ _ => true
  | _ => false

/-- Dispatch one event to the corresponding segment of `Queue.process`. -/
def step (q : QueueState) (e : Ev) : QueueState :=
  match e with
  | Ev.arrive t => arriveBlock t q
  | Ev.grant t => grantBlock t q
  | Ev.complete t s => completeBlock t s q

/-- Run a station's event trace from the freshly constructed queue. -/
def runEvents (es : List Ev) : QueueState := es.foldl step initQueue

/-! ## The scheduler's guarantees on a station's event trace

`Sched` is the abstract scheduler-side state of one station: the time of the
last processed event, whether a customer currently holds the capacity-1
server, and the arrival times of the customers that have arrived but have
not yet been granted the server (FIFO, oldest first). -/

structure Sched where
  lastT : ℚ
  busy : Bool
  pend : List ℚ
deriving DecidableEq, Repr

/-- Whether the scheduler can process event `e` next: time never decreases;
a grant requires a free server and a waiting customer (simpy grants the
FIFO resource only to a queued request once the previous holder releases);
a completion requires a customer in service. -/
def evOk (s : Sched) : Ev → Bool
  | Ev.arrive t => decide (s.lastT ≤ t)
  | Ev.grant t => decide (s.lastT ≤ t) && !s.busy && !s.pend.isEmpty
  | Ev.complete t _ => decide (s.lastT ≤ t) && s.busy

/-- Scheduler-side effect of an event. -/
def absStep (s : Sched) : Ev → Sched
  | Ev.arrive t => ⟨t, s.busy, s.pend ++ [t]⟩
  | Ev.grant t => ⟨t, true, s.pend.tail⟩
  | Ev.complete t _ => ⟨t, false, s.pend⟩

/-- The event trace `es` is producible by the scheduler from state `s`. -/
def validFrom (s : Sched) : List Ev → Bool
  | [] => true
  | e :: es => evOk s e && validFrom (absStep s e) es

def initSched : Sched := ⟨0, false, []⟩

/-- The event trace is producible by the scheduler from the start of a run
(clock 0, idle server, empty station). -/
def validTrace (es : List Ev) : Bool := validFrom initSched es

/-! ## The `main.py` variant of class `Queue`

`src/Queue Simulation/main.py` differs from `practice.py` in `process` and
`update_stats`: the arrival segment increments `num_serviced` and
`num_in_queue` *before* calling `update_stats`, the grant segment never sets
`server_status`, and `update_stats` ends with
`self.server_status = int(not self.server_status)` — it toggles the flag on
every statistics update. -/

/-- `Queue.update_stats` (`main.py`): integrate the elapsed interval, stamp
`last_event_time`, then toggle `server_status`. -/
def main_update_stats (now : ℚ) (q : QueueState) : QueueState :=
  { q with
    last_event_time := now
    area_under_b := q.area_under_b + (now - q.last_event_time) * (q.server_status : ℚ)
    area_under_q := q.area_under_q + (now - q.last_event_time) * (q.num_in_queue : ℚ)
    server_status := if q.server_status = 0 then 1 else 0 }

/-- Arrival segment of `Queue.process` (`main.py`): append the arrival time
to both lists, `num_serviced += 1`, `num_in_queue += 1`, and only then
`update_stats`. -/
def mainArriveBlock (t : ℚ) (q : QueueState) : QueueState :=
  main_update_stats t
    { q with
      times_of_arrival := q.times_of_arrival ++ [t]
      times_of_arrival_debug := q.times_of_arrival_debug ++ [t]
      num_serviced := q.num_serviced + 1
      num_in_queue := q.num_in_queue + 1 }

/-- Grant segment of `Queue.process` (`main.py`):
`total_delay += now - times_of_arrival.pop(0)`, `num_in_queue -= 1`, then
`update_stats`.  No `server_status` assignment. -/
def mainGrantBlock (t : ℚ) (q : QueueState) : QueueState :=
  match q.times_of_arrival with
  | [] => q
  | a :: rest =>
      main_update_stats t
        { q with
          total_delay := q.total_delay + (t - a)
          times_of_arrival := rest
          num_in_queue := q.num_in_queue - 1 }

/-- Completion segment of `Queue.process` (`main.py`): append the sampled
duration, then `update_stats`.  No `server_status` assignment. -/
def mainCompleteBlock (t s : ℚ) (q : QueueState) : QueueState :=
  main_update_stats t { q with service_times := q.service_times ++ [s] }

/-- Dispatch one event to the corresponding `main.py` segment. -/
def mainStep (q : QueueState) (e : Ev) : QueueState :=
  match e with
  | Ev.arrive t => mainArriveBlock t q
  | Ev.grant t => mainGrantBlock t q
  | Ev.complete t s => mainCompleteBlock t s q

/-! ## Pre-mutation ordering of the statistics update

Claim C2 asserts that `update_stats` runs immediately *before* every
mutation of `server_status` and `num_in_queue`.  The following blocks are
that ordering, written from the claim's words (the spec's
`integrateStats` contract): first integrate the pending interval under the
old counters, then apply the segment's mutations.  They are the comparison
point for the refinement theorem of C2. -/

/-- Arrival segment with the statistics update moved before the
`num_in_queue` mutation (the ordering claim C2 asserts). -/
def preArriveBlock (t : ℚ) (q : QueueState) : QueueState :=
  let q1 := update_stats t q
  { q1 with
    times_of_arrival := q1.times_of_arrival ++ [t]
    times_of_arrival_debug := q1.times_of_arrival_debug ++ [t]
    num_in_queue := q1.num_in_queue + 1 }

/-- Grant segment with the statistics update moved before the
`server_status` and `num_in_queue` mutations (the ordering claim C2
asserts). -/
def preGrantBlock (t : ℚ) (q : QueueState) : QueueState :=
  match q.times_of_arrival with
  | [] => q
  | a :: rest =>
      let q1 := update_stats t q
      { q1 with
        server_status := 1
        total_delay := q1.total_delay + (t - a)
        times_of_arrival := rest
        num_in_queue := q1.num_in_queue - 1
        num_serviced := q1.num_serviced + 1 }

/-- Completion segment with the statistics update before the
`server_status` mutation (this is already `practice.py`'s order). -/
def preCompleteBlock (t s : ℚ) (q : QueueState) : QueueState :=
  let q1 := update_stats t q
  let q2 := { q1 with service_times := q1.service_times ++ [s] }
  if q2.num_in_queue = 0 then { q2 with server_status := 0 } else q2

/-- Dispatch one event to the corresponding pre-mutation segment. -/
def preStep (q : QueueState) (e : Ev) : QueueState :=
  match e with
  | Ev.arrive t => preArriveBlock t q
  | Ev.grant t => preGrantBlock t q
  | Ev.complete t s => preCompleteBlock t s q

/-- `evOk` strengthened by what the engine additionally guarantees at a
grant: the resource is handed over at the very timestamp of the last
processed event of that station (a free server is granted at the arrival's
own timestamp; an occupied one at the releasing completion's timestamp). -/
def evOkH (s : Sched) : Ev → Bool
  | Ev.grant t => evOk s (Ev.grant t) && decide (t = s.lastT)
  | e => evOk s e

/-- `validFrom` with the grant-handoff timing guarantee. -/
def validFromH (s : Sched) : List Ev → Bool
  | [] => true
  | e :: es => evOkH s e && validFromH (absStep s e) es

/-- Scheduler-producible trace with grant-handoff timing, from the start of
a run. -/
def validTraceH (es : List Ev) : Bool := validFromH initSched es

/-! ## The Metrics Aggregator (`Simulation.calculate_metrics` and the
network-level lines of `Simulation.run`) -/

/-- Python's `/` on numbers: raises `ZeroDivisionError` on a zero
denominator, otherwise exact division (floats modelled as `ℚ`). -/
def pydiv (a b : ℚ) : Except String ℚ :=
  if b = 0 then Except.error "ZeroDivisionError" else Except.ok (a / b)

/-- The five-plus-one per-station measures the aggregator produces. -/
structure StationMetrics where
  WQ : ℚ
  Es : ℚ
  W : ℚ
  LQ : ℚ
  rho : ℚ
  L : ℚ
deriving DecidableEq, Repr

/-- `WQi` entry of `calculate_metrics`:
`queue.total_delay / queue.num_serviced if queue.num_serviced > 0 else 0`.
The guard makes the division unreachable when `num_serviced = 0`. -/
def metricWQ (q : QueueState) : ℚ :=
  if 0 < q.num_serviced then q.total_delay / (q.num_serviced : ℚ) else 0

/-- `Es` entry of `calculate_metrics`:
`sum(queue.service_times) / queue.num_serviced if queue.num_serviced > 0 else 0`. -/
def metricEs (q : QueueState) : ℚ :=
  if 0 < q.num_serviced then q.service_times.sum / (q.num_serviced : ℚ) else 0

/-- `Simulation.calculate_metrics` (`practice.py`): per queue, `WQi`, `Es`
and `Wi = WQi + Es` are computed under the `num_serviced > 0` guard; then
`LQi = area_under_q / simulation_time` and
`rho = area_under_b / simulation_time` divide *unguarded*, one dict
comprehension over queues 1, 2, 3 each; `Li = LQi + rho`.  The source
returns the dicts `(LQi, Li, WQi, Wi, rho)`; the embedding packages the
same values per station, in the source's evaluation order so that the first
Python `ZeroDivisionError` is the first `Except.error` here. -/
def calculate_metrics (q1 q2 q3 : QueueState) (simulation_time : ℚ) :
    Except String (StationMetrics × StationMetrics × StationMetrics) := do
  let WQ1 := metricWQ q1
  let WQ2 := metricWQ q2
  let WQ3 := metricWQ q3
  let Es1 := metricEs q1
  let Es2 := metricEs q2
  let Es3 := metricEs q3
  let LQ1 ← pydiv q1.area_under_q simulation_time
  let LQ2 ← pydiv q2.area_under_q simulation_time
  let LQ3 ← pydiv q3.area_under_q simulation_time
  let rho1 ← pydiv q1.area_under_b simulation_time
  let rho2 ← pydiv q2.area_under_b simulation_time
  let rho3 ← pydiv q3.area_under_b simulation_time
  return (⟨WQ1, Es1, WQ1 + Es1, LQ1, rho1, LQ1 + rho1⟩,
          ⟨WQ2, Es2, WQ2 + Es2, LQ2, rho2, LQ2 + rho2⟩,
          ⟨WQ3, Es3, WQ3 + Es3, LQ3, rho3, LQ3 + rho3⟩)

/-- The two network-level outputs printed at the end of `Simulation.run`:
`N = sum(avg_num_customers.values())` where `avg_num_customers` is the `Li`
dict, and `R = N / self.config.inter_arrival_rate` (unguarded division). -/
def networkSummary (q1 q2 q3 : QueueState)
    (inter_arrival_rate simulation_time : ℚ) : Except String (ℚ × ℚ) := do
  let m ← calculate_metrics q1 q2 q3 simulation_time
  let N := m.1.L + m.2.1.L + m.2.2.L
  let R ← pydiv N inter_arrival_rate
  return (N, R)

/-- The aggregator formulas exactly as the spec states them (spec section
4.4), written from the spec's words for comparison with
`calculate_metrics`: `WQ = cumulativeDelay / customersServiced` (0 if no
completions), `Es = cumulativeServiceTime / customersServiced` (0 if none),
`W = WQ + Es`, `LQ = areaUnderQueue / T`, `rho = areaUnderBusy / T`,
`L = LQ + rho`. -/
def specStationMetrics (q : QueueState) (T : ℚ) : StationMetrics :=
  let WQ := if 0 < q.num_serviced then q.total_delay / (q.num_serviced : ℚ) else 0
  let Es := if 0 < q.num_serviced then q.service_times.sum / (q.num_serviced : ℚ) else 0
  let LQ := q.area_under_q / T
  let rho := q.area_under_b / T
  ⟨WQ, Es, WQ + Es, LQ, rho, LQ + rho⟩

/-! ## Configuration and the whole-network run -/

/-- Class `Config` (`practice.py`): five unvalidated fields, set by
`__init__` and never checked anywhere. -/
structure Config where
  inter_arrival_rate : ℚ
  mu_1 : ℚ
  mu_2 : ℚ
  mu_3 : ℚ
  simulation_time : ℚ
deriving DecidableEq, Repr

/-- The literal values `Config.__init__` assigns. -/
def defaultConfig : Config :=
  { inter_arrival_rate := 1, mu_1 := 2, mu_2 := 4, mu_3 := 3, simulation_time := 1000 }

/-- The routing decision of `Customer.process_customer`:
`"2" if random.random() < 0.4 else "3"`. -/
def routeChoice (u : ℚ) : String :=
  if u < 2/5 then "2" else "3"

/-- One step of `Customer.process_customer` as a coroutine script: `visit`
runs the named station's `Queue.process` to full completion
(`yield self.env.process(queue.process())`), `draw` consumes one
`random.random()` sample. -/
inductive CustStep where
  | visit (station : String)
  | draw (u : ℚ)
deriving DecidableEq, Repr

/-- `Customer.process_customer` (`practice.py`): run Station 1's `process`
to completion, then draw `u`, then run the chosen station's `process` to
completion; the generator ends. -/
def process_customer (u : ℚ) : List CustStep :=
  [CustStep.visit "1", CustStep.draw u, CustStep.visit (routeChoice u)]

/-- Arrival instants generated by `Customer.process`: the running sums of
the sampled interarrival times. -/
def cumulativeTimes (now : ℚ) : List ℚ → List ℚ
  | [] => []
  | a :: rest => (now + a) :: cumulativeTimes (now + a) rest

/-- Per-customer `(arrival, grant, completion)` times at one FIFO
capacity-1 station: the k-th waiting customer is granted the server at
`max(arrival_k, completion_(k-1))` (immediately on arrival if the server is
free, otherwise the instant the previous holder releases it), and completes
after its sampled service duration — the timing simpy's `Resource` with
`capacity=1` produces for `Queue.process`. -/
def lindley (prevCompletion : ℚ) : List ℚ → List ℚ → List (ℚ × ℚ × ℚ)
  | t :: ts, s :: ss =>
      let g := max t prevCompletion
      (t, g, g + s) :: lindley (g + s) ts ss
  | _, _ => []

/-- Grant and completion events the engine processes before the horizon
`T`: `env.run(until=T)` stops the clock at `T`, so exactly the events with
time `< T` run; a grant at `g ≥ T` or a completion at `c ≥ T` is abandoned
mid-suspension.  The completion event carries the sampled duration
`c - g`. -/
def gcEvents (T : ℚ) : List (ℚ × ℚ × ℚ) → List Ev
  | [] => []
  | tgc :: rest =>
      (if tgc.2.1 < T then [Ev.grant tgc.2.1] else []) ++
        (if tgc.2.2 < T then [Ev.complete tgc.2.2 (tgc.2.2 - tgc.2.1)] else []) ++
        gcEvents T rest

/-- Merge two event lists sorted by time; on equal times the left list goes
first.  (Same-time events all contribute zero-length intervals to the
areas, so their relative order does not affect any accumulated
statistic.) -/
def mergeEv : List Ev → List Ev → List Ev
  | [], ys => ys
  | xs, [] => xs
  | x :: xs, y :: ys =>
      if evTime x ≤ evTime y then x :: mergeEv xs (y :: ys)
      else y :: mergeEv (x :: xs) ys
termination_by xs ys => xs.length + ys.length

/-- The time-ordered event trace one station processes before the horizon,
given its (pre-horizon) arrival instants and its sampled service
durations. -/
def stationEvents (T : ℚ) (arrs svcs : List ℚ) : List Ev :=
  mergeEv (arrs.map Ev.arrive) (gcEvents T (lindley 0 arrs svcs))

/-- Final state of one station after the engine halts at the horizon. -/
def stationRun (T : ℚ) (arrs svcs : List ℚ) : QueueState :=
  (stationEvents T arrs svcs).foldl step initQueue

/-- Arrival instants presented to Station 1 before the horizon: the
generator loop suspends for each sampled interarrival time and stops being
resumed at the first instant `≥ simulation_time`. -/
def station1Arrivals (cfg : Config) (iats : List ℚ) : List ℚ :=
  (cumulativeTimes 0 iats).takeWhile (fun t => decide (t < cfg.simulation_time))

/-- Station-1 completion times that the engine processes before the
horizon; each one resumes that customer's `process_customer`, which then
draws its routing sample. -/
def station1Completions (cfg : Config) (iats svc1 : List ℚ) : List ℚ :=
  ((lindley 0 (station1Arrivals cfg iats) svc1).map (fun x => x.2.2)).filter
    (fun c => decide (c < cfg.simulation_time))

/-- Station-1 completion times paired with the routing draw each completed
customer consumes, in completion order. -/
def routedPairs (cfg : Config) (iats svc1 us : List ℚ) : List (ℚ × ℚ) :=
  (station1Completions cfg iats svc1).zip us

/-- Arrival instants presented to Station 2: the completion times of the
customers routed there (`u < 0.4`), at the same timestamp as their Station-1
completion. -/
def station2Arrivals (cfg : Config) (iats svc1 us : List ℚ) : List ℚ :=
  ((routedPairs cfg iats svc1 us).filter (fun p => routeChoice p.2 == "2")).map
    (fun p => p.1)

/-- Arrival instants presented to Station 3 (`u ≥ 0.4`). -/
def station3Arrivals (cfg : Config) (iats svc1 us : List ℚ) : List ℚ :=
  ((routedPairs cfg iats svc1 us).filter (fun p => routeChoice p.2 == "3")).map
    (fun p => p.1)

/-- Final states of the three stations. -/
structure NetworkResult where
  q1 : QueueState
  q2 : QueueState
  q3 : QueueState
deriving DecidableEq, Repr

/-- `Simulation.run` up to the horizon (`practice.py`): Station 1 serves the
generator's arrivals, each pre-horizon Station-1 completion is routed by its
draw to Station 2 or 3 at the same instant, and each station folds its own
pre-horizon event trace.  Inputs are the sampled streams: interarrival
times, per-station service durations (consumed in grant order), and routing
draws (consumed in completion order).  Note the configured rates enter only
through the sampling distributions, which the streams replace; no field of
`cfg` other than `simulation_time` is read. -/
def runNetwork (cfg : Config) (iats svc1 svc2 svc3 us : List ℚ) : NetworkResult :=
  { q1 := stationRun cfg.simulation_time (station1Arrivals cfg iats) svc1
    q2 := stationRun cfg.simulation_time (station2Arrivals cfg iats svc1 us) svc2
    q3 := stationRun cfg.simulation_time (station3Arrivals cfg iats svc1 us) svc3 }

/-- Coupling invariant between a station's concrete state and the
scheduler-side abstract state: `times_of_arrival` is exactly the FIFO list
of pending (arrived, not yet granted) customers' arrival instants,
`num_in_queue` its length; the pending instants are sorted and no later
than the last event; `server_status` is 0 or 1, is 1 whenever a customer
holds the server, and is 0 when the station is idle and empty; the busy
area never exceeds the elapsed time. -/
structure Inv (q : QueueState) (s : Sched) : Prop where
  last_eq : q.last_event_time = s.lastT
  toa_eq : q.times_of_arrival = s.pend
  queue_eq : q.num_in_queue = (s.pend.length : ℤ)
  pend_le : ∀ x ∈ s.pend, x ≤ s.lastT
  pend_sorted : s.pend.Pairwise (fun a b => a ≤ b)
  lastT_nonneg : 0 ≤ s.lastT
  busy_status : s.busy = true → q.server_status = 1
  status01 : q.server_status = 0 ∨ q.server_status = 1
  idle_status : s.busy = false → s.pend = [] → q.server_status = 0
  areaB_le : q.area_under_b ≤ q.last_event_time

example : validTrace [Ev.arrive 1, Ev.grant 1, Ev.complete 3 2, Ev.arrive 4] = true := by
  norm_num [validTrace, validFrom, evOk, absStep, initSched]

example : validTrace [Ev.grant 1] = false := by
  norm_num [validTrace, validFrom, evOk, absStep, initSched]

example : (runEvents [Ev.arrive 1, Ev.grant 1, Ev.complete 3 2]).area_under_b = 2 := by
  norm_num [runEvents, step, arriveBlock, grantBlock, completeBlock, update_stats, initQueue]

/-- `step` on an arrival event is the arrival segment. -/
theorem step_arrive (q : QueueState) (t : ℚ) :
    step q (Ev.arrive t) = arriveBlock t q := rfl

/-- `step` on a grant event is the grant segment. -/
theorem step_grant (q : QueueState) (t : ℚ) :
    step q (Ev.grant t) = grantBlock t q := rfl

/-- `step` on a completion event is the completion segment. -/
theorem step_complete (q : QueueState) (t s : ℚ) :
    step q (Ev.complete t s) = completeBlock t s q := rfl

/-- Record normal form of the arrival segment. -/
theorem arriveBlock_eq (t : ℚ) (q : QueueState) :
    arriveBlock t q =
      { q with
        times_of_arrival := q.times_of_arrival ++ [t]
        times_of_arrival_debug := q.times_of_arrival_debug ++ [t]
        last_event_time := t
        area_under_b := q.area_under_b + (t - q.last_event_time) * (q.server_status : ℚ)
        area_under_q := q.area_under_q + (t - q.last_event_time) * (q.num_in_queue : ℚ)
        num_in_queue := q.num_in_queue + 1 } := rfl

/-- Record normal form of the grant segment when a customer is waiting. -/
theorem grantBlock_cons {q : QueueState} {a : ℚ} {rest : List ℚ}
    (h : q.times_of_arrival = a :: rest) (t : ℚ) :
    grantBlock t q =
      { q with
        server_status := 1
        total_delay := q.total_delay + (t - a)
        times_of_arrival := rest
        num_in_queue := q.num_in_queue - 1
        num_serviced := q.num_serviced + 1
        last_event_time := t
        area_under_b := q.area_under_b + (t - q.last_event_time) * ((1 : ℤ) : ℚ)
        area_under_q :=
          q.area_under_q + (t - q.last_event_time) * ((q.num_in_queue - 1 : ℤ) : ℚ) } := by
  unfold grantBlock
  rw [h]
  rfl

/-- Record normal form of the completion segment. -/
theorem completeBlock_eq (t s : ℚ) (q : QueueState) :
    completeBlock t s q =
      { q with
        service_times := q.service_times ++ [s]
        last_event_time := t
        area_under_b := q.area_under_b + (t - q.last_event_time) * (q.server_status : ℚ)
        area_under_q := q.area_under_q + (t - q.last_event_time) * (q.num_in_queue : ℚ)
        server_status := if q.num_in_queue = 0 then 0 else q.server_status } := by
  unfold completeBlock update_stats
  by_cases hz : q.num_in_queue = 0 <;> simp [hz]

/-- `arriveBlock` is exactly `update_stats` applied to
`arriveIntegrationState`, followed by the `num_in_queue` increment — the
source order append, integrate, increment. -/
theorem arriveBlock_factor (t : ℚ) (q : QueueState) :
    arriveBlock t q =
      { update_stats t (arriveIntegrationState t q) with
        num_in_queue := (update_stats t (arriveIntegrationState t q)).num_in_queue + 1 } :=
  rfl

/-- `grantBlock` is exactly `update_stats` applied to
`grantIntegrationState` — in the source the statistics update is the last
statement of the grant segment. -/
theorem grantBlock_factor {q : QueueState} {a : ℚ} {rest : List ℚ}
    (h : q.times_of_arrival = a :: rest) (t : ℚ) :
    grantBlock t q = update_stats t (grantIntegrationState t q) := by
  unfold grantBlock grantIntegrationState
  rw [h]

/-- `completeBlock` is exactly `update_stats` applied to
`completeIntegrationState`, followed by the conditional `server_status`
clear. -/
theorem completeBlock_factor (t s : ℚ) (q : QueueState) :
    completeBlock t s q =
      (if (update_stats t (completeIntegrationState s q)).num_in_queue = 0
        then { update_stats t (completeIntegrationState s q) with server_status := 0 }
        else update_stats t (completeIntegrationState s q)) :=
  rfl

/-- Record normal form of the `main.py` grant segment when a customer is
waiting. -/
theorem mainGrantBlock_cons {q : QueueState} {a : ℚ} {rest : List ℚ}
    (h : q.times_of_arrival = a :: rest) (t : ℚ) :
    mainGrantBlock t q =
      main_update_stats t
        { q with
          total_delay := q.total_delay + (t - a)
          times_of_arrival := rest
          num_in_queue := q.num_in_queue - 1 } := by
  unfold mainGrantBlock
  rw [h]

theorem inv_init : Inv initQueue initSched := by
  constructor <;> simp [initQueue, initSched]

/-- One scheduler-admissible event preserves the coupling invariant, and
both areas never decrease across the event's statistics update. -/
theorem inv_step {q : QueueState} {s : Sched} {e : Ev}
    (hI : Inv q s) (he : evOk s e = true) :
    Inv (step q e) (absStep s e) ∧
    q.area_under_q ≤ (step q e).area_under_q ∧
    q.area_under_b ≤ (step q e).area_under_b := by
  obtain ⟨hlast, htoa, hqueue, hple, hsort, hnn, hbusy, h01, hidle, hab⟩ := hI
  have hstat0 : (0:ℚ) ≤ (q.server_status : ℚ) := by
    rcases h01 with h | h <;> simp [h]
  have hstat1 : (q.server_status : ℚ) ≤ 1 := by
    rcases h01 with h | h <;> simp [h]
  have hq0 : (0:ℚ) ≤ (q.num_in_queue : ℚ) := by
    rw [hqueue]; positivity
  cases e with
  | arrive t =>
      simp only [evOk, decide_eq_true_eq] at he
      have hdt : 0 ≤ t - q.last_event_time := by rw [hlast]; linarith
      rw [step_arrive, arriveBlock_eq]
      refine ⟨Inv.mk ?_ ?_ ?_ ?_ ?_ ?_ ?_ ?_ ?_ ?_, ?_, ?_⟩
      · rfl
      · show q.times_of_arrival ++ [t] = s.pend ++ [t]
        rw [htoa]
      · show q.num_in_queue + 1 = ((s.pend ++ [t]).length : ℤ)
        rw [hqueue]
        push_cast [List.length_append, List.length_singleton]
        ring
      · show ∀ x ∈ s.pend ++ [t], x ≤ t
        intro x hx
        rcases List.mem_append.mp hx with hx | hx
        · exact le_trans (hple x hx) he
        · simp only [List.mem_singleton] at hx
          exact le_of_eq hx
      · show (s.pend ++ [t]).Pairwise (fun a b => a ≤ b)
        refine List.pairwise_append.mpr ⟨hsort, by simp, ?_⟩
        intro a ha b hb
        simp only [List.mem_singleton] at hb
        subst hb
        exact le_trans (hple a ha) he
      · show (0:ℚ) ≤ t
        linarith
      · show s.busy = true → q.server_status = 1
        exact hbusy
      · show q.server_status = 0 ∨ q.server_status = 1
        exact h01
      · show s.busy = false → s.pend ++ [t] = [] → q.server_status = 0
        intro _ hp
        exact absurd hp (by simp)
      · show q.area_under_b + (t - q.last_event_time) * (q.server_status : ℚ) ≤ t
        nlinarith [mul_nonneg hdt hstat0, mul_le_mul_of_nonneg_left hstat1 hdt]
      · show q.area_under_q ≤ q.area_under_q + (t - q.last_event_time) * (q.num_in_queue : ℚ)
        nlinarith [mul_nonneg hdt hq0]
      · show q.area_under_b ≤ q.area_under_b + (t - q.last_event_time) * (q.server_status : ℚ)
        nlinarith [mul_nonneg hdt hstat0]
  | grant t =>
      simp only [evOk, Bool.and_eq_true, Bool.not_eq_true', decide_eq_true_eq] at he
      obtain ⟨⟨hle, hfree⟩, hne⟩ := he
      have hne2 : s.pend ≠ [] := by
        intro h
        rw [h] at hne
        simp at hne
      obtain ⟨a, rest, hpend⟩ := List.exists_cons_of_ne_nil hne2
      have htoa2 : q.times_of_arrival = a :: rest := htoa.trans hpend
      have hdt : 0 ≤ t - q.last_event_time := by rw [hlast]; linarith
      have hq1 : q.num_in_queue = (rest.length : ℤ) + 1 := by
        rw [hqueue, hpend]
        push_cast [List.length_cons]
        ring
      have hrest0 : (0:ℚ) ≤ ((q.num_in_queue - 1 : ℤ) : ℚ) := by
        rw [hq1]
        push_cast
        have : (0:ℚ) ≤ (rest.length : ℚ) := by positivity
        linarith
      rw [step_grant, grantBlock_cons htoa2]
      refine ⟨Inv.mk ?_ ?_ ?_ ?_ ?_ ?_ ?_ ?_ ?_ ?_, ?_, ?_⟩
      · rfl
      · show rest = s.pend.tail
        simp [hpend]
      · show q.num_in_queue - 1 = (s.pend.tail.length : ℤ)
        rw [hpend, hq1]
        push_cast [List.tail_cons]
        ring
      · show ∀ x ∈ s.pend.tail, x ≤ t
        intro x hx
        rw [hpend] at hx
        exact le_trans (hple x (hpend ▸ List.mem_cons_of_mem a hx)) hle
      · show s.pend.tail.Pairwise (fun a b => a ≤ b)
        rw [hpend]
        exact (List.pairwise_cons.mp (hpend ▸ hsort)).2
      · show (0:ℚ) ≤ t
        linarith
      · intro _
        rfl
      · show (1:ℤ) = 0 ∨ (1:ℤ) = 1
        right
        rfl
      · intro h
        simp [absStep] at h
      · show q.area_under_b + (t - q.last_event_time) * ((1:ℤ) : ℚ) ≤ t
        push_cast
        nlinarith [hab, hdt]
      · show q.area_under_q ≤
          q.area_under_q + (t - q.last_event_time) * ((q.num_in_queue - 1 : ℤ) : ℚ)
        nlinarith [mul_nonneg hdt hrest0]
      · show q.area_under_b ≤ q.area_under_b + (t - q.last_event_time) * ((1:ℤ) : ℚ)
        push_cast
        nlinarith [hdt]
  | complete t s' =>
      simp only [evOk, Bool.and_eq_true, decide_eq_true_eq] at he
      obtain ⟨hle, hb⟩ := he
      have hs1 : q.server_status = 1 := hbusy hb
      have hdt : 0 ≤ t - q.last_event_time := by rw [hlast]; linarith
      rw [step_complete, completeBlock_eq]
      refine ⟨Inv.mk ?_ ?_ ?_ ?_ ?_ ?_ ?_ ?_ ?_ ?_, ?_, ?_⟩
      · rfl
      · show q.times_of_arrival = s.pend
        exact htoa
      · show q.num_in_queue = (s.pend.length : ℤ)
        exact hqueue
      · show ∀ x ∈ s.pend, x ≤ t
        intro x hx
        exact le_trans (hple x hx) hle
      · show s.pend.Pairwise (fun a b => a ≤ b)
        exact hsort
      · show (0:ℚ) ≤ t
        linarith
      · intro h
        simp [absStep] at h
      · show (if q.num_in_queue = 0 then 0 else q.server_status) = 0 ∨
          (if q.num_in_queue = 0 then 0 else q.server_status) = 1
        by_cases hz : q.num_in_queue = 0
        · rw [if_pos hz]
          left
          rfl
        · rw [if_neg hz]
          exact h01
      · intro _ hp
        simp only [absStep] at hp
        have hz : q.num_in_queue = 0 := by
          rw [hqueue, hp]
          rfl
        show (if q.num_in_queue = 0 then 0 else q.server_status) = 0
        rw [if_pos hz]
      · show q.area_under_b + (t - q.last_event_time) * (q.server_status : ℚ) ≤ t
        rw [hs1]
        push_cast
        nlinarith [hab, hdt]
      · show q.area_under_q ≤ q.area_under_q + (t - q.last_event_time) * (q.num_in_queue : ℚ)
        nlinarith [mul_nonneg hdt hq0]
      · show q.area_under_b ≤ q.area_under_b + (t - q.last_event_time) * (q.server_status : ℚ)
        nlinarith [mul_nonneg hdt hstat0]

/-- The coupling invariant and area monotonicity propagate along any
scheduler-producible event trace. -/
theorem inv_fold :
    ∀ (es : List Ev) (s : Sched) (q : QueueState), Inv q s →
      validFrom s es = true →
      Inv (es.foldl step q) (es.foldl absStep s) ∧
      q.area_under_q ≤ (es.foldl step q).area_under_q ∧
      q.area_under_b ≤ (es.foldl step q).area_under_b := by
  intro es
  induction es with
  | nil =>
      intro s q hI _
      exact ⟨hI, le_refl _, le_refl _⟩
  | cons e es ih =>
      intro s q hI hv
      rw [validFrom, Bool.and_eq_true] at hv
      obtain ⟨hok, hv⟩ := hv
      obtain ⟨hI2, hq2, hb2⟩ := inv_step hI hok
      obtain ⟨hI3, hq3, hb3⟩ := ih (absStep s e) (step q e) hI2 hv
      exact ⟨hI3, le_trans hq2 hq3, le_trans hb2 hb3⟩

/-- A trace is producible iff its tail is producible from the abstract state
after its head. -/
theorem validFrom_append :
    ∀ (l : List Ev) (s : Sched) (r : List Ev),
      validFrom s (l ++ r) = true ↔
        validFrom s l = true ∧ validFrom (l.foldl absStep s) r = true := by
  intro l
  induction l with
  | nil =>
      intro s r
      simp [validFrom]
  | cons e l ih =>
      intro s r
      simp only [List.cons_append, validFrom, Bool.and_eq_true, List.foldl_cons,
        List.append_eq]
      rw [ih]
      tauto

/-- The abstract clock never exceeds a bound on the event times. -/
theorem foldl_absStep_lastT_le {T : ℚ} :
    ∀ (es : List Ev) (s : Sched), s.lastT ≤ T →
      (∀ e ∈ es, evTime e ≤ T) → (es.foldl absStep s).lastT ≤ T := by
  intro es
  induction es with
  | nil =>
      intro s hs _
      exact hs
  | cons e es ih =>
      intro s hs hb
      rw [List.foldl_cons]
      refine ih (absStep s e) ?_ (fun x hx => hb x (List.mem_cons_of_mem e hx))
      have := hb e (List.mem_cons_self e es)
      cases e <;> simpa [absStep, evTime] using this

/-- Along a producible trace, the number of pending customers is the number
of arrivals minus the number of grants. -/
theorem pend_length_sub :
    ∀ (es : List Ev) (s : Sched), validFrom s es = true →
      ((es.foldl absStep s).pend.length : ℤ) =
        (s.pend.length : ℤ) + (es.countP isArriveEv : ℤ) - (es.countP isGrantEv : ℤ) := by
  intro es
  induction es with
  | nil =>
      intro s _
      simp
  | cons e es ih =>
      intro s hv
      rw [validFrom, Bool.and_eq_true] at hv
      obtain ⟨hok, hv⟩ := hv
      rw [List.foldl_cons]
      rw [ih (absStep s e) hv]
      cases e with
      | arrive t =>
          simp [absStep, List.countP_cons, isArriveEv, isGrantEv]
          ring
      | grant t =>
          have hne : s.pend ≠ [] := by
            simp only [evOk, Bool.and_eq_true, Bool.not_eq_true'] at hok
            intro h
            rw [h] at hok
            simp at hok
          obtain ⟨a, rest, hpend⟩ := List.exists_cons_of_ne_nil hne
          simp [absStep, List.countP_cons, isArriveEv, isGrantEv, hpend]
          ring
      | complete t s' =>
          simp [absStep, List.countP_cons, isArriveEv, isGrantEv]

/-- Folding any event list changes `service_times` length by the number of
completion events. -/
theorem foldl_service_times_length :
    ∀ (es : List Ev) (q : QueueState),
      (es.foldl step q).service_times.length =
        q.service_times.length + es.countP isCompleteEv := by
  intro es
  induction es with
  | nil =>
      intro q
      simp
  | cons e es ih =>
      intro q
      rw [List.foldl_cons, ih]
      cases e with
      | arrive t =>
          simp [step, arriveBlock_eq, List.countP_cons, isCompleteEv]
      | grant t =>
          have : (grantBlock t q).service_times = q.service_times := by
            unfold grantBlock
            cases q.times_of_arrival <;> rfl
          simp [step, this, List.countP_cons, isCompleteEv]
      | complete t s' =>
          simp [step, completeBlock_eq, List.countP_cons, isCompleteEv]
          ring

/-- Folding any event list changes `times_of_arrival_debug` length by the
number of arrival events. -/
theorem foldl_debug_length :
    ∀ (es : List Ev) (q : QueueState),
      (es.foldl step q).times_of_arrival_debug.length =
        q.times_of_arrival_debug.length + es.countP isArriveEv := by
  intro es
  induction es with
  | nil =>
      intro q
      simp
  | cons e es ih =>
      intro q
      rw [List.foldl_cons, ih]
      cases e with
      | arrive t =>
          simp [step, arriveBlock_eq, List.countP_cons, isArriveEv]
          ring
      | grant t =>
          have : (grantBlock t q).times_of_arrival_debug = q.times_of_arrival_debug := by
            unfold grantBlock
            cases q.times_of_arrival <;> rfl
          simp [step, this, List.countP_cons, isArriveEv]
      | complete t s' =>
          simp [step, completeBlock_eq, List.countP_cons, isArriveEv]

/-- Along a producible trace, `num_serviced` grows by exactly the number of
grant events: it counts service *starts*. -/
theorem foldl_num_serviced :
    ∀ (es : List Ev) (s : Sched) (q : QueueState), Inv q s →
      validFrom s es = true →
      (es.foldl step q).num_serviced = q.num_serviced + es.countP isGrantEv := by
  intro es
  induction es with
  | nil =>
      intro s q _ _
      simp
  | cons e es ih =>
      intro s q hI hv
      rw [validFrom, Bool.and_eq_true] at hv
      obtain ⟨hok, hv⟩ := hv
      rw [List.foldl_cons, ih (absStep s e) (step q e) (inv_step hI hok).1 hv]
      cases e with
      | arrive t =>
          simp [step, arriveBlock_eq, List.countP_cons, isGrantEv]
      | grant t =>
          have hne : s.pend ≠ [] := by
            simp only [evOk, Bool.and_eq_true, Bool.not_eq_true'] at hok
            intro h
            rw [h] at hok
            simp at hok
          obtain ⟨a, rest, hpend⟩ := List.exists_cons_of_ne_nil hne
          have htoa2 : q.times_of_arrival = a :: rest := hI.toa_eq.trans hpend
          simp [step, grantBlock_cons htoa2, List.countP_cons, isGrantEv]
          ring
      | complete t s' =>
          simp [step, completeBlock_eq, List.countP_cons, isGrantEv]

/-- Merging preserves event counts. -/
theorem countP_mergeEv (p : Ev → Bool) :
    ∀ (xs ys : List Ev), (mergeEv xs ys).countP p = xs.countP p + ys.countP p := by
  intro xs
  induction xs with
  | nil =>
      intro ys
      simp [mergeEv]
  | cons x xs ihx =>
      intro ys
      induction ys with
      | nil =>
          simp [mergeEv]
      | cons y ys ihy =>
          by_cases h : evTime x ≤ evTime y
          · rw [mergeEv, if_pos h]
            simp only [List.countP_cons, ihx (y :: ys)]
            ring
          · rw [mergeEv, if_neg h]
            simp only [List.countP_cons, ihy]
            ring

/-- `gcEvents` contains no arrival events. -/
theorem countP_gcEvents_arrive (T : ℚ) :
    ∀ tri : List (ℚ × ℚ × ℚ), (gcEvents T tri).countP isArriveEv = 0 := by
  intro tri
  induction tri with
  | nil =>
      simp [gcEvents]
  | cons x tri ih =>
      rw [gcEvents]
      rw [List.countP_append, List.countP_append, ih]
      by_cases hg : x.2.1 < T <;> by_cases hc : x.2.2 < T <;>
        simp [hg, hc, List.countP_cons, isArriveEv]

/-- `gcEvents` contains one completion event per customer whose completion
time precedes the horizon. -/
theorem countP_gcEvents_complete (T : ℚ) :
    ∀ tri : List (ℚ × ℚ × ℚ),
      (gcEvents T tri).countP isCompleteEv =
        tri.countP (fun x => decide (x.2.2 < T)) := by
  intro tri
  induction tri with
  | nil =>
      simp [gcEvents]
  | cons x tri ih =>
      rw [gcEvents]
      rw [List.countP_append, List.countP_append, ih, List.countP_cons]
      by_cases hg : x.2.1 < T <;> by_cases hc : x.2.2 < T <;>
        simp [hg, hc, List.countP_cons, isCompleteEv] <;> ring

/-- A station's trace presents exactly its arrival list as arrival events. -/
theorem stationEvents_arrive_count (T : ℚ) (arrs svcs : List ℚ) :
    (stationEvents T arrs svcs).countP isArriveEv = arrs.length := by
  unfold stationEvents
  rw [countP_mergeEv, countP_gcEvents_arrive, List.countP_map]
  simp [isArriveEv, Function.comp]

/-- A station's trace contains one completion event per pre-horizon
completion of the Lindley recursion. -/
theorem stationEvents_complete_count (T : ℚ) (arrs svcs : List ℚ) :
    (stationEvents T arrs svcs).countP isCompleteEv =
      (lindley 0 arrs svcs).countP (fun x => decide (x.2.2 < T)) := by
  unfold stationEvents
  rw [countP_mergeEv, countP_gcEvents_complete, List.countP_map]
  simp [isCompleteEv, Function.comp]

/-- The pre-horizon completion list has as many elements as the trace has
completion events. -/
theorem length_station1Completions (cfg : Config) (iats svc1 : List ℚ) :
    (station1Completions cfg iats svc1).length =
      (lindley 0 (station1Arrivals cfg iats) svc1).countP
        (fun x => decide (x.2.2 < cfg.simulation_time)) := by
  unfold station1Completions
  rw [← List.countP_eq_length_filter, List.countP_map]
  rfl

/-- Every routing draw sends the completed customer to exactly one of
Station 2 and Station 3. -/
theorem routeChoice_two_or_three (u : ℚ) :
    (routeChoice u == "2") = true ∧ (routeChoice u == "3") = false ∨
    (routeChoice u == "2") = false ∧ (routeChoice u == "3") = true := by
  unfold routeChoice
  by_cases h : u < 2/5 <;> simp [h]

/-- The two downstream filters partition the routed customers. -/
theorem routed_partition :
    ∀ l : List (ℚ × ℚ),
      (l.filter (fun p => routeChoice p.2 == "2")).length +
        (l.filter (fun p => routeChoice p.2 == "3")).length = l.length := by
  intro l
  induction l with
  | nil =>
      simp
  | cons x l ih =>
      rcases routeChoice_two_or_three x.2 with ⟨h2, h3⟩ | ⟨h2, h3⟩ <;>
        simp [List.filter_cons, h2, h3, ← ih] <;> ring

/-- In the arrival segment the statistics update already precedes the
`num_in_queue` mutation, so both orders produce the same state. -/
theorem arriveBlock_pre_eq (t : ℚ) (q : QueueState) :
    arriveBlock t q = preArriveBlock t q := rfl

/-- In the completion segment the statistics update already precedes the
`server_status` mutation, so both orders produce the same state. -/
theorem completeBlock_pre_eq (t s : ℚ) (q : QueueState) :
    completeBlock t s q = preCompleteBlock t s q := rfl

/-- When the grant happens at the station's `last_event_time` — which the
engine guarantees — the interval integrated by the grant segment has zero
length, so mutating before or after the statistics update produces the same
state. -/
theorem grantBlock_handoff (t : ℚ) {q : QueueState} (h : q.last_event_time = t) :
    grantBlock t q = preGrantBlock t q := by
  rcases hcase : q.times_of_arrival with _ | ⟨a, rest⟩
  · unfold grantBlock preGrantBlock
    rw [hcase]
  · rw [grantBlock_cons hcase]
    unfold preGrantBlock update_stats
    rw [hcase]
    simp [h]

/-- Refinement: on every trace the engine can produce (grants handed over at
the station's last event time), `practice.py`'s `Queue.process` computes
exactly the state of the pre-mutation-ordered variant — every interval of
positive length is integrated with the counters that were in effect during
it. -/
theorem fold_preStep_refine :
    ∀ (es : List Ev) (s : Sched) (q : QueueState),
      q.last_event_time = s.lastT → q.times_of_arrival = s.pend →
      validFromH s es = true →
      es.foldl step q = es.foldl preStep q := by
  intro es
  induction es with
  | nil =>
      intro s q _ _ _
      rfl
  | cons e es ih =>
      intro s q hlast htoa hv
      rw [validFromH, Bool.and_eq_true] at hv
      obtain ⟨hok, hv⟩ := hv
      have hstep : step q e = preStep q e := by
        cases e with
        | arrive t =>
            exact arriveBlock_pre_eq t q
        | grant t =>
            have ht : t = s.lastT := by
              simp only [evOkH, Bool.and_eq_true, decide_eq_true_eq] at hok
              exact hok.2
            exact grantBlock_handoff t (hlast.trans ht.symm)
        | complete t s' =>
            exact completeBlock_pre_eq t s' q
      rw [List.foldl_cons, List.foldl_cons, ← hstep]
      cases e with
      | arrive t =>
          refine ih (absStep s (Ev.arrive t)) (step q (Ev.arrive t)) ?_ ?_ hv
          · simp [step_arrive, arriveBlock_eq, absStep]
          · simp [step_arrive, arriveBlock_eq, absStep, htoa]
      | grant t =>
          have hne : s.pend ≠ [] := by
            simp only [evOkH, evOk, Bool.and_eq_true, Bool.not_eq_true'] at hok
            intro hnil
            rw [hnil] at hok
            simp at hok
          obtain ⟨a, rest, hpend⟩ := List.exists_cons_of_ne_nil hne
          have htoa2 : q.times_of_arrival = a :: rest := htoa.trans hpend
          refine ih (absStep s (Ev.grant t)) (step q (Ev.grant t)) ?_ ?_ hv
          · simp [step_grant, grantBlock_cons htoa2, absStep]
          · simp [step_grant, grantBlock_cons htoa2, absStep, hpend]
      | complete t s' =>
          refine ih (absStep s (Ev.complete t s')) (step q (Ev.complete t s')) ?_ ?_ hv
          · simp [step_complete, completeBlock_eq, absStep]
          · simp [step_complete, completeBlock_eq, absStep, htoa]

/-! ## Claim theorems -/

/-- C1: for all final station states, every horizon `T > 0` and nonzero
interarrival rate, the Metrics Aggregator returns exactly
`WQ = cumulativeDelay / customersServiced` and
`Es = cumulativeServiceTime / customersServiced` when `customersServiced > 0`
(and `0` for both instead of dividing when it is `0`), `W = WQ + Es`,
`LQ = areaUnderQueue / T`, `rho = areaUnderBusy / T`, `L = LQ + rho`, and the
network-level outputs are `N = L_1 + L_2 + L_3` and
`R = N / interArrivalRate` — the spec-side formulas `specStationMetrics`. -/
theorem c1_metrics_aggregator_formulas (q1 q2 q3 : QueueState) (T rate : ℚ)
    (hT : 0 < T) (hrate : rate ≠ 0) :
    calculate_metrics q1 q2 q3 T =
      Except.ok (specStationMetrics q1 T, specStationMetrics q2 T,
        specStationMetrics q3 T) ∧
    networkSummary q1 q2 q3 rate T =
      Except.ok
        ((specStationMetrics q1 T).L + (specStationMetrics q2 T).L +
            (specStationMetrics q3 T).L,
          ((specStationMetrics q1 T).L + (specStationMetrics q2 T).L +
            (specStationMetrics q3 T).L) / rate) := by
  have hT0 : T ≠ 0 := ne_of_gt hT
  constructor
  · simp [calculate_metrics, pydiv, hT0, specStationMetrics, metricWQ, metricEs,
      Bind.bind, Except.bind, pure, Except.pure]
  · simp [networkSummary, calculate_metrics, pydiv, hT0, hrate, specStationMetrics,
      metricWQ, metricEs, Bind.bind, Except.bind, pure, Except.pure]

/-- Witness for C1 at a concrete input: station 1 with two completions
(`total_delay = 3`, `service_times = [1, 2]`, areas 5 and 4), stations 2 and
3 untouched, horizon 10, rate 1. -/
theorem c1_metrics_aggregator_formulas_witness :
    calculate_metrics ⟨2, 0, 3, [], [], [1, 2], 5, 4, 9, 0⟩ initQueue initQueue 10 =
      Except.ok (specStationMetrics ⟨2, 0, 3, [], [], [1, 2], 5, 4, 9, 0⟩ 10,
        specStationMetrics initQueue 10, specStationMetrics initQueue 10) ∧
    networkSummary ⟨2, 0, 3, [], [], [1, 2], 5, 4, 9, 0⟩ initQueue initQueue 1 10 =
      Except.ok
        ((specStationMetrics ⟨2, 0, 3, [], [], [1, 2], 5, 4, 9, 0⟩ 10).L +
            (specStationMetrics initQueue 10).L + (specStationMetrics initQueue 10).L,
          ((specStationMetrics ⟨2, 0, 3, [], [], [1, 2], 5, 4, 9, 0⟩ 10).L +
            (specStationMetrics initQueue 10).L + (specStationMetrics initQueue 10).L) / 1) :=
  c1_metrics_aggregator_formulas ⟨2, 0, 3, [], [], [1, 2], 5, 4, 9, 0⟩ initQueue initQueue
    10 1 (by norm_num) (by norm_num)

/-- C3 counterexample: at `simulationTime = 0` the aggregator raises
`ZeroDivisionError` (already on freshly initialised stations, whose measures
the claim says should all report 0). -/
theorem c3_zero_horizon_counterexample :
    calculate_metrics initQueue initQueue initQueue 0 =
      Except.error "ZeroDivisionError" := by
  simp [calculate_metrics, pydiv, metricWQ, metricEs, initQueue,
    Bind.bind, Except.bind, pure, Except.pure]

/-- C3 amended: with `simulationTime = 0` the Metrics Aggregator always
raises a division fault (the unguarded `area_under_q / simulation_time` in
`LQ`); only the `customersServiced = 0` divisions are guarded, and no
zero-valued report is produced. -/
theorem c3_zero_horizon_division_fault (q1 q2 q3 : QueueState) :
    calculate_metrics q1 q2 q3 0 = Except.error "ZeroDivisionError" := by
  simp [calculate_metrics, pydiv, metricWQ, metricEs,
    Bind.bind, Except.bind, pure, Except.pure]

/-- C4: `process_customer` visits Station 1 to full completion first, draws
exactly one uniform sample strictly after that completion, routes to
Station 2 exactly when `u < 0.4` and to Station 3 otherwise, and performs no
step after the second station's visit. -/
theorem c4_routing_after_station1 (u : ℚ) :
    process_customer u =
      [CustStep.visit "1", CustStep.draw u, CustStep.visit (routeChoice u)] ∧
    (routeChoice u = "2" ↔ u < 2/5) ∧
    (routeChoice u = "3" ↔ ¬u < 2/5) := by
  refine ⟨rfl, ?_, ?_⟩ <;> unfold routeChoice <;> by_cases h : u < 2/5 <;> simp [h]

/-- C2 counterexample: in the `main.py` variant of `Queue.process` (cited by
the claim) the arrival segment mutates `num_in_queue` *before* invoking
`update_stats`.  On the very first arrival, at time 1 from the initial state
(queue length 0 throughout `[0, 1)`), the interval is integrated with the
post-mutation queue length: `area_under_q` becomes 1, not the pre-mutation
value 0 that `practice.py`'s arrival segment (update before mutation)
produces on the same input. -/
theorem c2_update_order_counterexample :
    initQueue.num_in_queue = 0 ∧
    (mainArriveBlock 1 initQueue).area_under_q = 1 ∧
    (arriveBlock 1 initQueue).area_under_q = 0 := by
  refine ⟨rfl, ?_, ?_⟩ <;>
    norm_num [mainArriveBlock, main_update_stats, arriveBlock, update_stats, initQueue]

/-- C2 amended: in `practice.py`, `update_stats` precedes the mutations in
the arrival and completion segments, while the grant segment mutates first —
but every grant the engine produces occurs at the station's
`last_event_time`, so that update integrates a zero-length interval and the
run computes exactly the state of the variant whose statistics update
precedes every mutation: every interval of positive length is integrated
with the counters in effect during it. -/
theorem c2_premutation_integration_refinement (es : List Ev)
    (hv : validTraceH es = true) :
    es.foldl step initQueue = es.foldl preStep initQueue :=
  fold_preStep_refine es initSched initQueue rfl rfl hv

/-- Witness for C2 on a concrete two-customer handoff trace. -/
theorem c2_premutation_integration_refinement_witness :
    [Ev.arrive 1, Ev.grant 1, Ev.arrive 2, Ev.complete 3 2, Ev.grant 3,
        Ev.complete 4 1].foldl step initQueue =
      [Ev.arrive 1, Ev.grant 1, Ev.arrive 2, Ev.complete 3 2, Ev.grant 3,
        Ev.complete 4 1].foldl preStep initQueue :=
  c2_premutation_integration_refinement _
    (by norm_num [validTraceH, validFromH, evOkH, evOk, absStep, initSched])

/-- C6: the `main.py` variant toggles `server_status` inside every
`update_stats` call, so the flag does not track occupancy.  Failing input:
one customer, arriving at time 1, served from 1 to 3 (the trace the engine
produces for horizon 10, arrival stream `[1]`, service stream `[2]`).
After the grant the server is occupied for the whole of `[1, 3)` yet
`server_status = 0` there, the busy area ends at 0, and after the final
(idle) completion the flag is 1.  `practice.py`'s explicit set/clear
convention on the same trace accumulates the correct busy area 2. -/
theorem c6_toggle_busy_flag_bug :
    stationEvents 10 [1] [2] = [Ev.arrive 1, Ev.grant 1, Ev.complete 3 2] ∧
    ([Ev.arrive 1, Ev.grant 1].foldl mainStep initQueue).server_status = 0 ∧
    ([Ev.arrive 1, Ev.grant 1, Ev.complete 3 2].foldl mainStep initQueue).server_status
      = 1 ∧
    ([Ev.arrive 1, Ev.grant 1, Ev.complete 3 2].foldl mainStep initQueue).area_under_b
      = 0 ∧
    ([Ev.arrive 1, Ev.grant 1, Ev.complete 3 2].foldl step initQueue).area_under_b
      = 2 := by
  refine ⟨?_, ?_, ?_, ?_, ?_⟩ <;>
    norm_num [stationEvents, mergeEv, gcEvents, lindley, evTime, mainStep,
      mainArriveBlock, mainGrantBlock, mainCompleteBlock, main_update_stats,
      step, arriveBlock, grantBlock, completeBlock, update_stats, initQueue]

/-- C7: along every scheduler-producible trace whose events all occur by the
horizon `T ≥ 0`: `num_in_queue ≥ 0` at every prefix (hence at every
integration point), both areas are non-decreasing from any prefix to the end
of the run, and the final `area_under_b` never exceeds `T`. -/
theorem c7_area_invariants (T : ℚ) (es l r : List Ev)
    (hv : validTrace es = true) (hT : 0 ≤ T)
    (hb : ∀ e ∈ es, evTime e ≤ T) (hsplit : es = l ++ r) :
    0 ≤ (runEvents l).num_in_queue ∧
    (runEvents l).area_under_q ≤ (runEvents es).area_under_q ∧
    (runEvents l).area_under_b ≤ (runEvents es).area_under_b ∧
    (runEvents es).area_under_b ≤ T := by
  subst hsplit
  rw [validTrace, validFrom_append] at hv
  obtain ⟨hvl, hvr⟩ := hv
  obtain ⟨hIl, _, _⟩ := inv_fold l initSched initQueue inv_init hvl
  obtain ⟨hIe, hq, hbmono⟩ := inv_fold r (l.foldl absStep initSched)
    (l.foldl step initQueue) hIl hvr
  have hrun : runEvents (l ++ r) = r.foldl step (l.foldl step initQueue) := by
    rw [runEvents, List.foldl_append]
  refine ⟨?_, ?_, ?_, ?_⟩
  · rw [show runEvents l = l.foldl step initQueue from rfl, hIl.queue_eq]
    positivity
  · rw [hrun]
    exact hq
  · rw [hrun]
    exact hbmono
  · rw [hrun]
    have h1 := hIe.areaB_le
    rw [hIe.last_eq] at h1
    have h2 : ((l ++ r).foldl absStep initSched).lastT ≤ T :=
      foldl_absStep_lastT_le (l ++ r) initSched hT hb
    rw [List.foldl_append] at h2
    exact le_trans h1 h2

/-- Witness for C7 on a concrete producible trace, split after the grant. -/
theorem c7_area_invariants_witness :
    0 ≤ (runEvents [Ev.arrive 1, Ev.grant 1]).num_in_queue ∧
    (runEvents [Ev.arrive 1, Ev.grant 1]).area_under_q ≤
      (runEvents [Ev.arrive 1, Ev.grant 1, Ev.complete 3 2, Ev.arrive 4]).area_under_q ∧
    (runEvents [Ev.arrive 1, Ev.grant 1]).area_under_b ≤
      (runEvents [Ev.arrive 1, Ev.grant 1, Ev.complete 3 2, Ev.arrive 4]).area_under_b ∧
    (runEvents [Ev.arrive 1, Ev.grant 1, Ev.complete 3 2, Ev.arrive 4]).area_under_b
      ≤ 10 :=
  c7_area_invariants 10 [Ev.arrive 1, Ev.grant 1, Ev.complete 3 2, Ev.arrive 4]
    [Ev.arrive 1, Ev.grant 1] [Ev.complete 3 2, Ev.arrive 4]
    (by norm_num [validTrace, validFrom, evOk, absStep, initSched])
    (by norm_num)
    (by intro e he; fin_cases he <;> norm_num [evTime])
    rfl

/-- C8 counterexample: on the engine's own trace for one customer arriving
at time 1 (horizon 2, service sample 5), one customer has arrived and none
has departed — it occupies the server — yet `num_in_queue = 0`:
`practice.py` decrements the counter when service is *granted*, so a
customer in service is not counted, contradicting the claimed
"queue + in-service" reading. -/
theorem c8_queue_counts_counterexample :
    validTrace [Ev.arrive 1, Ev.grant 1] = true ∧
    stationEvents 2 [1] [5] = [Ev.arrive 1, Ev.grant 1] ∧
    [Ev.arrive 1, Ev.grant 1].countP isArriveEv -
      [Ev.arrive 1, Ev.grant 1].countP isCompleteEv = 1 ∧
    (runEvents [Ev.arrive 1, Ev.grant 1]).num_in_queue = 0 := by
  refine ⟨?_, ?_, ?_, ?_⟩ <;>
    norm_num [validTrace, validFrom, evOk, absStep, initSched, stationEvents,
      mergeEv, gcEvents, lindley, evTime, runEvents, step, arriveBlock,
      grantBlock, completeBlock, update_stats, initQueue, List.countP_cons,
      isArriveEv, isCompleteEv]

/-- C8 amended: at every point of a producible run, `num_in_queue` equals
the number of arrivals so far minus the number of service *grants* so far —
the customers waiting for the server, excluding the one in service. -/
theorem c8_queue_counts_waiting_only (es l r : List Ev)
    (hv : validTrace es = true) (hsplit : es = l ++ r) :
    (runEvents l).num_in_queue =
      (l.countP isArriveEv : ℤ) - (l.countP isGrantEv : ℤ) := by
  subst hsplit
  rw [validTrace, validFrom_append] at hv
  obtain ⟨hvl, _⟩ := hv
  obtain ⟨hIl, _, _⟩ := inv_fold l initSched initQueue inv_init hvl
  rw [show runEvents l = l.foldl step initQueue from rfl, hIl.queue_eq,
    pend_length_sub l initSched hvl]
  simp [initSched]

/-- Witness for C8 on a concrete producible trace. -/
theorem c8_queue_counts_waiting_only_witness :
    (runEvents [Ev.arrive 1, Ev.arrive 2]).num_in_queue =
      ([Ev.arrive 1, Ev.arrive 2].countP isArriveEv : ℤ) -
        ([Ev.arrive 1, Ev.arrive 2].countP isGrantEv : ℤ) :=
  c8_queue_counts_waiting_only [Ev.arrive 1, Ev.arrive 2, Ev.grant 2]
    [Ev.arrive 1, Ev.arrive 2] [Ev.grant 2]
    (by norm_num [validTrace, validFrom, evOk, absStep, initSched]) rfl

/-- In the `main.py` variant every segment mutates `times_of_arrival` and
`num_in_queue` together before its `update_stats` call, so along any
producible trace the list and the counter stay coupled at event boundaries
there as well. -/
theorem main_inv_fold :
    ∀ (es : List Ev) (s : Sched) (q : QueueState),
      q.times_of_arrival = s.pend → q.num_in_queue = (s.pend.length : ℤ) →
      validFrom s es = true →
      (es.foldl mainStep q).times_of_arrival = (es.foldl absStep s).pend ∧
      (es.foldl mainStep q).num_in_queue = ((es.foldl absStep s).pend.length : ℤ) := by
  intro es
  induction es with
  | nil =>
      intro s q h1 h2 _
      exact ⟨h1, h2⟩
  | cons e es ih =>
      intro s q h1 h2 hv
      rw [validFrom, Bool.and_eq_true] at hv
      obtain ⟨hok, hv⟩ := hv
      rw [List.foldl_cons, List.foldl_cons]
      cases e with
      | arrive t =>
          refine ih (absStep s (Ev.arrive t)) (mainArriveBlock t q) ?_ ?_ hv
          · simp [mainArriveBlock, main_update_stats, absStep, h1]
          · simp only [mainArriveBlock, main_update_stats, absStep]
            rw [h2]
            push_cast [List.length_append, List.length_singleton]
            ring
      | grant t =>
          have hne : s.pend ≠ [] := by
            simp only [evOk, Bool.and_eq_true, Bool.not_eq_true'] at hok
            intro hnil
            rw [hnil] at hok
            simp at hok
          obtain ⟨a, rest, hpend⟩ := List.exists_cons_of_ne_nil hne
          have htoa2 : q.times_of_arrival = a :: rest := h1.trans hpend
          refine ih (absStep s (Ev.grant t)) (mainGrantBlock t q) ?_ ?_ hv
          · simp [mainGrantBlock_cons htoa2, main_update_stats, absStep, hpend]
          · simp only [mainGrantBlock_cons htoa2, main_update_stats, absStep]
            rw [h2, hpend]
            push_cast [List.length_cons, List.tail_cons]
            ring
      | complete t s' =>
          refine ih (absStep s (Ev.complete t s')) (mainCompleteBlock t s' q) ?_ ?_ hv
          · simp [mainCompleteBlock, main_update_stats, absStep, h1]
          · simp [mainCompleteBlock, main_update_stats, absStep, h2]

/-- C10 counterexample: the claim's checkpoint "every call to
`update_stats`" fails in `practice.py`'s arrival segment, whose order is
append, `update_stats`, increment: on the first arrival of any run (time 1,
initial state), the state actually passed to `update_stats` — which
`arriveBlock` factors through, first conjunct — already holds the new
timestamp (`times_of_arrival` has length 1) while `num_in_queue` is still
0. -/
theorem c10_integration_point_counterexample :
    arriveBlock 1 initQueue =
      { update_stats 1 (arriveIntegrationState 1 initQueue) with
        num_in_queue :=
          (update_stats 1 (arriveIntegrationState 1 initQueue)).num_in_queue + 1 } ∧
    (arriveIntegrationState 1 initQueue).times_of_arrival.length = 1 ∧
    (arriveIntegrationState 1 initQueue).num_in_queue = 0 := by
  refine ⟨rfl, ?_, ?_⟩ <;> norm_num [arriveIntegrationState, initQueue]

/-- C10 amended: at every suspension point of a producible run,
`num_in_queue` equals the length of `times_of_arrival`, in `practice.py`'s
and in `main.py`'s variant alike.  At the `update_stats` call inside
`practice.py`'s arrival segment the list is exactly one element longer than
the counter (the append precedes the call, the increment follows it); at
the grant- and completion-segment calls the equality holds.  Each arrival
appends exactly one timestamp and each grant pops exactly one — the head,
which is no later than every other pending timestamp — so the FIFO pop
retrieves the arrival timestamp of the customer entering service and adds
exactly `now - a` to `total_delay`. -/
theorem c10_queue_list_coupling (es : List Ev) (hv : validTrace es = true) :
    (∀ l r, es = l ++ r →
      (runEvents l).num_in_queue = ((runEvents l).times_of_arrival.length : ℤ) ∧
      (l.foldl mainStep initQueue).num_in_queue =
        ((l.foldl mainStep initQueue).times_of_arrival.length : ℤ)) ∧
    (∀ l t r, es = l ++ Ev.arrive t :: r →
      ((arriveIntegrationState t (runEvents l)).times_of_arrival.length : ℤ) =
        (arriveIntegrationState t (runEvents l)).num_in_queue + 1) ∧
    (∀ l t r, es = l ++ Ev.grant t :: r →
      ((grantIntegrationState t (runEvents l)).times_of_arrival.length : ℤ) =
        (grantIntegrationState t (runEvents l)).num_in_queue ∧
      ∃ a rest, (runEvents l).times_of_arrival = a :: rest ∧
        (∀ x ∈ rest, a ≤ x) ∧
        (runEvents (l ++ [Ev.grant t])).times_of_arrival = rest ∧
        (runEvents (l ++ [Ev.grant t])).total_delay =
          (runEvents l).total_delay + (t - a)) ∧
    (∀ l t s r, es = l ++ Ev.complete t s :: r →
      ((completeIntegrationState s (runEvents l)).times_of_arrival.length : ℤ) =
        (completeIntegrationState s (runEvents l)).num_in_queue) := by
  refine ⟨?_, ?_, ?_, ?_⟩
  · intro l r hsplit
    rw [hsplit, validTrace, validFrom_append] at hv
    obtain ⟨hvl, _⟩ := hv
    obtain ⟨hIl, _, _⟩ := inv_fold l initSched initQueue inv_init hvl
    constructor
    · rw [show runEvents l = l.foldl step initQueue from rfl, hIl.queue_eq, hIl.toa_eq]
    · obtain ⟨hm1, hm2⟩ := main_inv_fold l initSched initQueue rfl rfl hvl
      rw [hm1, hm2]
  · intro l t r hsplit
    rw [hsplit, validTrace, validFrom_append] at hv
    obtain ⟨hvl, _⟩ := hv
    obtain ⟨hIl, _, _⟩ := inv_fold l initSched initQueue inv_init hvl
    have hq := hIl.queue_eq
    have htoa := hIl.toa_eq
    simp only [arriveIntegrationState]
    rw [show runEvents l = l.foldl step initQueue from rfl, hq, htoa]
    push_cast [List.length_append, List.length_singleton]
    ring
  · intro l t r hsplit
    rw [hsplit, validTrace, validFrom_append] at hv
    obtain ⟨hvl, hvr⟩ := hv
    obtain ⟨hIl, _, _⟩ := inv_fold l initSched initQueue inv_init hvl
    rw [validFrom, Bool.and_eq_true] at hvr
    obtain ⟨hok, _⟩ := hvr
    have hne : (l.foldl absStep initSched).pend ≠ [] := by
      simp only [evOk, Bool.and_eq_true, Bool.not_eq_true'] at hok
      intro hnil
      rw [hnil] at hok
      simp at hok
    obtain ⟨a, rest, hpend⟩ := List.exists_cons_of_ne_nil hne
    have htoa2 : (l.foldl step initQueue).times_of_arrival = a :: rest :=
      hIl.toa_eq.trans hpend
    have hq2 : (l.foldl step initQueue).num_in_queue = (rest.length : ℤ) + 1 := by
      rw [hIl.queue_eq, hpend]
      push_cast [List.length_cons]
      ring
    constructor
    · show ((grantIntegrationState t (l.foldl step initQueue)).times_of_arrival.length : ℤ)
        = (grantIntegrationState t (l.foldl step initQueue)).num_in_queue
      unfold grantIntegrationState
      rw [htoa2]
      simp only []
      rw [hq2]
      ring
    · have hstep : runEvents (l ++ [Ev.grant t]) =
          grantBlock t (l.foldl step initQueue) := by
        rw [runEvents, List.foldl_append]
        rfl
      refine ⟨a, rest, htoa2, ?_, ?_, ?_⟩
      · intro x hx
        have hsorted := hIl.pend_sorted
        rw [hpend] at hsorted
        exact (List.pairwise_cons.mp hsorted).1 x hx
      · rw [hstep, grantBlock_cons htoa2]
      · rw [hstep, grantBlock_cons htoa2]
        rfl
  · intro l t s r hsplit
    rw [hsplit, validTrace, validFrom_append] at hv
    obtain ⟨hvl, _⟩ := hv
    obtain ⟨hIl, _, _⟩ := inv_fold l initSched initQueue inv_init hvl
    simp only [completeIntegrationState]
    rw [show runEvents l = l.foldl step initQueue from rfl, hIl.queue_eq, hIl.toa_eq]

/-- Witness for C10 on the engine trace of one customer (arrive at 1, grant
at 1, complete at 3): the boundary coupling after the arrival, the
off-by-one at the arrival's integration state, the exact coupling at the
grant's integration state with its FIFO pop, and the coupling at the
completion's integration state. -/
theorem c10_queue_list_coupling_witness :
    ((runEvents [Ev.arrive 1]).num_in_queue =
        ((runEvents [Ev.arrive 1]).times_of_arrival.length : ℤ) ∧
      ([Ev.arrive 1].foldl mainStep initQueue).num_in_queue =
        (([Ev.arrive 1].foldl mainStep initQueue).times_of_arrival.length : ℤ)) ∧
    ((arriveIntegrationState 1 (runEvents [])).times_of_arrival.length : ℤ) =
      (arriveIntegrationState 1 (runEvents [])).num_in_queue + 1 ∧
    (((grantIntegrationState 1 (runEvents [Ev.arrive 1])).times_of_arrival.length : ℤ) =
        (grantIntegrationState 1 (runEvents [Ev.arrive 1])).num_in_queue ∧
      ∃ a rest, (runEvents [Ev.arrive 1]).times_of_arrival = a :: rest ∧
        (∀ x ∈ rest, a ≤ x) ∧
        (runEvents ([Ev.arrive 1] ++ [Ev.grant 1])).times_of_arrival = rest ∧
        (runEvents ([Ev.arrive 1] ++ [Ev.grant 1])).total_delay =
          (runEvents [Ev.arrive 1]).total_delay + (1 - a)) ∧
    ((completeIntegrationState 2 (runEvents [Ev.arrive 1, Ev.grant 1])).times_of_arrival.length : ℤ) =
      (completeIntegrationState 2 (runEvents [Ev.arrive 1, Ev.grant 1])).num_in_queue :=
  have hv : validTrace [Ev.arrive 1, Ev.grant 1, Ev.complete 3 2] = true := by
    norm_num [validTrace, validFrom, evOk, absStep, initSched]
  ⟨(c10_queue_list_coupling _ hv).1 [Ev.arrive 1] [Ev.grant 1, Ev.complete 3 2] rfl,
   (c10_queue_list_coupling _ hv).2.1 [] 1 [Ev.grant 1, Ev.complete 3 2] rfl,
   (c10_queue_list_coupling _ hv).2.2.1 [Ev.arrive 1] 1 [Ev.complete 3 2] rfl,
   (c10_queue_list_coupling _ hv).2.2.2 [Ev.arrive 1, Ev.grant 1] 3 2 [] rfl⟩

/-- C5 counterexample: horizon 2, one customer arriving at time 1 with
service sample 5.  The grant happens at time 1 (before the horizon), so
`customersServiced = 1`, but the completion would be at time 6 and is
abandoned by the halt: no service time is recorded and neither downstream
station is presented any arrival — `1 ≠ 0 + 0`.  `num_serviced` counts
service *starts*, not completions. -/
theorem c5_conservation_counterexample :
    (runNetwork ⟨1, 2, 4, 3, 2⟩ [1, 5] [5] [] [] []).q1.num_serviced = 1 ∧
    (runNetwork ⟨1, 2, 4, 3, 2⟩ [1, 5] [5] [] [] []).q1.service_times = [] ∧
    (runNetwork ⟨1, 2, 4, 3, 2⟩ [1, 5] [5] [] [] []).q2.times_of_arrival_debug = [] ∧
    (runNetwork ⟨1, 2, 4, 3, 2⟩ [1, 5] [5] [] [] []).q3.times_of_arrival_debug = [] := by
  refine ⟨?_, ?_, ?_, ?_⟩ <;>
    norm_num [runNetwork, stationRun, stationEvents, mergeEv, gcEvents, lindley,
      evTime, station1Arrivals, station2Arrivals, station3Arrivals, routedPairs,
      station1Completions, cumulativeTimes, routeChoice, step, arriveBlock,
      grantBlock, completeBlock, update_stats, initQueue]

/-- C5 amended: at the end of every run, the number of service *completions*
at Station 1 (the recorded `service_times`) equals the number of arrivals
presented to Station 2 plus the number presented to Station 3; the
`customersServiced` counter counts service starts and can exceed that sum
when the horizon halts a customer mid-service. -/
theorem c5_completions_conservation (cfg : Config) (iats svc1 svc2 svc3 us : List ℚ)
    (hus : (station1Completions cfg iats svc1).length ≤ us.length) :
    (runNetwork cfg iats svc1 svc2 svc3 us).q1.service_times.length =
      (runNetwork cfg iats svc1 svc2 svc3 us).q2.times_of_arrival_debug.length +
        (runNetwork cfg iats svc1 svc2 svc3 us).q3.times_of_arrival_debug.length := by
  unfold runNetwork stationRun
  rw [foldl_service_times_length, foldl_debug_length, foldl_debug_length,
    stationEvents_complete_count, stationEvents_arrive_count,
    stationEvents_arrive_count, ← length_station1Completions]
  unfold station2Arrivals station3Arrivals
  rw [List.length_map, List.length_map]
  have hpart := routed_partition (routedPairs cfg iats svc1 us)
  have hzip : (routedPairs cfg iats svc1 us).length =
      min (station1Completions cfg iats svc1).length us.length := by
    unfold routedPairs
    rw [List.length_zip]
  simp only [initQueue, List.length_nil, Nat.zero_add]
  omega

/-- Witness for C5 on a complete concrete run: one customer, served at
Station 1 from time 1 to 6, routed (draw 0 < 0.4) to Station 2 at time 6. -/
theorem c5_completions_conservation_witness :
    (runNetwork ⟨1, 2, 4, 3, 1000⟩ [1, 2000] [5] [1] [] [0]).q1.service_times.length =
      (runNetwork ⟨1, 2, 4, 3, 1000⟩ [1, 2000] [5] [1] [] [0]).q2.times_of_arrival_debug.length +
        (runNetwork ⟨1, 2, 4, 3, 1000⟩ [1, 2000] [5] [1] [] [0]).q3.times_of_arrival_debug.length :=
  c5_completions_conservation ⟨1, 2, 4, 3, 1000⟩ [1, 2000] [5] [1] [] [0]
    (by norm_num [station1Completions, station1Arrivals, cumulativeTimes, lindley])

/-- C9 counterexample: the configuration with `mu_3 = -1` is invalid (a
non-positive rate), yet nothing rejects it: the run proceeds and processes
events — Station 1 serves a customer and Station 2 serves the routed
customer (Station 3's rate is never even sampled on this run). -/
theorem c9_no_failfast_counterexample :
    (⟨1, 2, 4, -1, 1000⟩ : Config).mu_3 ≤ 0 ∧
    (runNetwork ⟨1, 2, 4, -1, 1000⟩ [1, 2000] [5] [1] [] [0]).q1.num_serviced = 1 ∧
    (runNetwork ⟨1, 2, 4, -1, 1000⟩ [1, 2000] [5] [1] [] [0]).q2.num_serviced = 1 := by
  refine ⟨by norm_num, ?_, ?_⟩ <;>
    norm_num [runNetwork, stationRun, stationEvents, mergeEv, gcEvents, lindley,
      evTime, station1Arrivals, station2Arrivals, station3Arrivals, routedPairs,
      station1Completions, cumulativeTimes, routeChoice, step, arriveBlock,
      grantBlock, completeBlock, update_stats, initQueue]

/-- C9 amended: no configuration validation exists.  `Config.__init__` only
stores its fields and `Simulation.run` begins scheduling immediately:
the run's event processing never examines the rate fields, so two
configurations with the same horizon — one valid, one with non-positive
rates — produce identical runs, and no rejection ever occurs before (or
during) scheduling. -/
theorem c9_no_validation_rates_ignored (cfg cfg2 : Config)
    (iats svc1 svc2 svc3 us : List ℚ)
    (h : cfg.simulation_time = cfg2.simulation_time) :
    runNetwork cfg iats svc1 svc2 svc3 us = runNetwork cfg2 iats svc1 svc2 svc3 us := by
  unfold runNetwork stationRun stationEvents station2Arrivals station3Arrivals
    routedPairs station1Completions station1Arrivals
  rw [h]

/-- Witness for C9: the all-invalid configuration `⟨0, 0, 0, 0, 5⟩` runs
identically to the valid `⟨1, 2, 4, 3, 5⟩`. -/
theorem c9_no_validation_rates_ignored_witness :
    runNetwork ⟨0, 0, 0, 0, 5⟩ [1] [1] [] [] [0] =
      runNetwork ⟨1, 2, 4, 3, 5⟩ [1] [1] [] [] [0] :=
  c9_no_validation_rates_ignored ⟨0, 0, 0, 0, 5⟩ ⟨1, 2, 4, 3, 5⟩ [1] [1] [] [] [0] rfl

/-- Witness for C3's amended statement at concrete final states. -/
theorem c3_zero_horizon_division_fault_witness :
    calculate_metrics ⟨2, 0, 3, [], [], [1, 2], 5, 4, 9, 0⟩ initQueue
      ⟨1, 1, 1, [1], [1], [], 1, 1, 1, 1⟩ 0 = Except.error "ZeroDivisionError" :=
  c3_zero_horizon_division_fault ⟨2, 0, 3, [], [], [1, 2], 5, 4, 9, 0⟩ initQueue
    ⟨1, 1, 1, [1], [1], [], 1, 1, 1, 1⟩

/-- Witness for C4 at the concrete draw `u = 1/5`. -/
theorem c4_routing_after_station1_witness :
    process_customer (1/5) =
      [CustStep.visit "1", CustStep.draw (1/5), CustStep.visit (routeChoice (1/5))] ∧
    (routeChoice (1/5) = "2" ↔ (1/5 : ℚ) < 2/5) ∧
    (routeChoice (1/5) = "3" ↔ ¬(1/5 : ℚ) < 2/5) :=
  c4_routing_after_station1 (1/5)

end PEIUST